import Mathlib

/-!
# Verification of skeincoin `src/core.cpp`

A shallow embedding, in Lean 4, of the consensus-critical functions of
`src/core.cpp` (amount compression, Merkle tree construction and branch
checking, coin-entry spending and mask sizing, proof-of-work gating, and the
structural block validator), together with theorems settling the specified
properties of each.

Machine integers are modelled as `Nat` with an explicit `% 2 ^ 64` wherever
the C++ `uint64` arithmetic can wrap.  External collaborators declared in
headers that are not part of this translation unit (hash functions, network
parameters, the aux-pow record checker, per-transaction checks) are modelled
as explicit parameters, following the spec's description of their contracts.
-/

namespace Skeincoin

/-- The modulus of C++ `uint64` arithmetic. -/
def U64 : Nat := 2 ^ 64

/-! ## Amount codec (`CTxOutCompressor::CompressAmount` / `DecompressAmount`)

The C++ loop `while (((n % 10) == 0) && e < 9) { n /= 10; e++; }` of
`CompressAmount` becomes `stripZeros`, recursing exactly while the loop
condition holds (termination: `e` grows toward its cap `9`). -/

/-- The trailing-decimal-zero stripping loop of `CompressAmount`
(`src/core.cpp:146-149`): divide by 10 while divisible and fewer than 9
divisions have happened; returns the stripped value and the exponent. -/
def stripZeros (n e : Nat) : Nat × Nat :=
  if n % 10 = 0 ∧ e < 9 then stripZeros (n / 10) (e + 1) else (n, e)
termination_by 9 - e
decreasing_by omega

/-- `CTxOutCompressor::CompressAmount` (`src/core.cpp:141-158`): 0 maps to 0;
otherwise strip trailing decimal zeros (exponent `e ≤ 9`); for `e < 9` split
off the last digit `d` and emit `1 + (n*9 + d - 1)*10 + e`, else emit
`1 + (n - 1)*10 + 9`.  The arithmetic is `uint64`, hence the `% U64`. -/
def CompressAmount (n : Nat) : Nat :=
  if n = 0 then 0
  else
    let p := stripZeros n 0
    let e := p.2
    if e < 9 then
      let d := p.1 % 10
      let m := p.1 / 10
      (1 + (m * 9 + d - 1) * 10 + e) % U64
    else
      (1 + (p.1 - 1) * 10 + 9) % U64

/-- The final `while (e) { n *= 10; e--; }` loop of `DecompressAmount`
(`src/core.cpp:179-182`), with the `uint64` wrap applied at each
multiplication as in the source. -/
def mulPow10Wrap (n : Nat) : Nat → Nat
  | 0 => n
  | e + 1 => mulPow10Wrap (n * 10 % U64) e

/-- `CTxOutCompressor::DecompressAmount` (`src/core.cpp:160-184`): 0 maps to
0; otherwise peel the exponent `e = (x-1) % 10`, reconstruct the stripped
value (`e < 9`: last digit `(x % 9) + 1` appended to `x / 9`; `e = 9`:
`x + 1`), and multiply back by `10^e` with `uint64` wrapping. -/
def DecompressAmount (x : Nat) : Nat :=
  if x = 0 then 0
  else
    let y := x - 1
    let e := y % 10
    let z := y / 10
    let n := (if e < 9 then (z / 9) * 10 + (z % 9 + 1) else z + 1) % U64
    mulPow10Wrap n e

/-! ### Properties of the stripping loop -/

theorem stripZeros_le (n e : Nat) : e ≤ (stripZeros n e).2 := by
  induction n, e using stripZeros.induct with
  | case1 n e h ih => rw [stripZeros, if_pos h]; omega
  | case2 n e h => rw [stripZeros, if_neg h]

theorem stripZeros_le9 (n e : Nat) : (stripZeros n e).2 ≤ max e 9 := by
  induction n, e using stripZeros.induct with
  | case1 n e h ih => rw [stripZeros, if_pos h]; omega
  | case2 n e h => rw [stripZeros, if_neg h]; omega

theorem stripZeros_mul (n e : Nat) :
    (stripZeros n e).1 * 10 ^ ((stripZeros n e).2 - e) = n := by
  induction n, e using stripZeros.induct with
  | case1 n e h ih =>
    rw [stripZeros, if_pos h]
    have hle := stripZeros_le (n / 10) (e + 1)
    have hpow : (stripZeros (n / 10) (e + 1)).2 - e
        = ((stripZeros (n / 10) (e + 1)).2 - (e + 1)) + 1 := by omega
    rw [hpow, pow_succ, ← Nat.mul_assoc, ih]
    omega
  | case2 n e h => rw [stripZeros, if_neg h]; simp

theorem stripZeros_mod (n e : Nat) (h9 : (stripZeros n e).2 < 9) :
    (stripZeros n e).1 % 10 ≠ 0 := by
  induction n, e using stripZeros.induct with
  | case1 n e h ih =>
    rw [stripZeros, if_pos h] at h9 ⊢
    exact ih h9
  | case2 n e h =>
    rw [stripZeros, if_neg h] at h9 ⊢
    simp only [not_and, Nat.not_lt] at h
    intro hmod
    omega

theorem stripZeros_ne (n e : Nat) (hn : n ≠ 0) : (stripZeros n e).1 ≠ 0 := by
  induction n, e using stripZeros.induct with
  | case1 n e h ih =>
    rw [stripZeros, if_pos h]
    exact ih (by omega)
  | case2 n e h => rw [stripZeros, if_neg h]; exact hn

/-- The wrapping multiply-by-`10^e` loop agrees with exact arithmetic as long
as the exact result fits in 64 bits. -/
theorem mulPow10Wrap_eq (e n : Nat) (h : n * 10 ^ e < U64) :
    mulPow10Wrap n e = n * 10 ^ e := by
  induction e generalizing n with
  | zero => simp [mulPow10Wrap]
  | succ k ih =>
    have h10 : n * 10 ≤ n * 10 ^ (k + 1) := by
      have : (10 : Nat) ≤ 10 ^ (k + 1) := by
        calc (10 : Nat) = 10 ^ 1 := (pow_one 10).symm
        _ ≤ 10 ^ (k + 1) := Nat.pow_le_pow_right (by omega) (by omega)
      exact Nat.mul_le_mul_left n this
    rw [mulPow10Wrap, Nat.mod_eq_of_lt (by omega), ih]
    · ring_nf
    · have : n * 10 * 10 ^ k = n * 10 ^ (k + 1) := by ring
      omega

/-- C1: for every 64-bit amount `x` in the no-overflow region (all of
`CompressAmount`'s `uint64` arithmetic stays below `2^64` exactly when
`9*x + 8 < 2^64`, which covers every monetarily valid amount),
`DecompressAmount (CompressAmount x) = x`; and `CompressAmount 0 = 0`. -/
theorem compressAmount_decompressAmount_roundtrip (x : Nat) (hb : 9 * x + 8 < U64) :
    DecompressAmount (CompressAmount x) = x ∧ CompressAmount 0 = 0 := by
  refine ⟨?_, by simp [CompressAmount]⟩
  rcases Nat.eq_zero_or_pos x with hx0 | hx0
  · subst hx0; simp [CompressAmount, DecompressAmount]
  have hxU : x < U64 := by omega
  set m := (stripZeros x 0).1 with hm_def
  set e := (stripZeros x 0).2 with he_def
  have hx : m * 10 ^ e = x := by simpa using stripZeros_mul x 0
  have he9 : e ≤ 9 := by have := stripZeros_le9 x 0; omega
  have hm0 : m ≠ 0 := stripZeros_ne x 0 (by omega)
  have hmx : m ≤ x := by
    have h1 : (1 : Nat) ≤ 10 ^ e := Nat.one_le_pow _ _ (by omega)
    calc m = m * 1 := by ring
    _ ≤ m * 10 ^ e := Nat.mul_le_mul_left m h1
    _ = x := hx
  by_cases he : e < 9
  · have hd : m % 10 ≠ 0 := stripZeros_mod x 0 (by omega)
    set d := m % 10 with hd_def
    set m' := m / 10 with hm'_def
    have hdm : m = 10 * m' + d := by omega
    have hd1 : 1 ≤ d := by omega
    have hd9 : d ≤ 9 := by omega
    set craw := 1 + (m' * 9 + d - 1) * 10 + e with hcraw_def
    have hcraw : craw = 9 * m + d + e - 9 := by omega
    have hcb : craw < U64 := by omega
    have hcomp : CompressAmount x = craw := by
      rw [CompressAmount, if_neg (by omega)]
      simp only [← hm_def, ← he_def, if_pos he, ← hd_def, ← hm'_def, ← hcraw_def]
      exact Nat.mod_eq_of_lt hcb
    rw [hcomp, DecompressAmount, if_neg (by omega)]
    have hy : craw - 1 = 10 * (m' * 9 + (d - 1)) + e := by omega
    have hye : (craw - 1) % 10 = e := by omega
    have hyz : (craw - 1) / 10 = m' * 9 + (d - 1) := by omega
    simp only [hye, hyz, if_pos he]
    have hz9 : (m' * 9 + (d - 1)) / 9 = m' := by omega
    have hz9' : (m' * 9 + (d - 1)) % 9 = d - 1 := by omega
    rw [hz9, hz9']
    have hn : m' * 10 + (d - 1 + 1) = m := by omega
    rw [hn, Nat.mod_eq_of_lt (by omega)]
    rw [mulPow10Wrap_eq e m (by omega)]
    exact hx
  · have he' : e = 9 := by omega
    rw [he'] at hx
    have h109 : (10 : Nat) ≤ 10 ^ 9 := by norm_num
    have h10m : 10 * m ≤ m * 10 ^ 9 := by
      calc 10 * m = m * 10 := by ring
      _ ≤ m * 10 ^ 9 := Nat.mul_le_mul_left m h109
    have hcomp : CompressAmount x = 10 * m := by
      rw [CompressAmount, if_neg (by omega)]
      simp only [← hm_def, ← he_def, if_neg he]
      rw [Nat.mod_eq_of_lt (by omega)]
      omega
    rw [hcomp, DecompressAmount, if_neg (by omega)]
    have hye : (10 * m - 1) % 10 = 9 := by omega
    have hyz : (10 * m - 1) / 10 = m - 1 := by omega
    simp only [hye, hyz]
    rw [if_neg (by omega)]
    have hn : m - 1 + 1 = m := by omega
    rw [hn, Nat.mod_eq_of_lt (by omega)]
    rw [mulPow10Wrap_eq 9 m (by omega)]
    exact hx

/-- C1 witness: the round trip at the concrete amount 123456789. -/
theorem compressAmount_decompressAmount_roundtrip_witness :
    9 * 123456789 + 8 < U64 ∧
      (DecompressAmount (CompressAmount 123456789) = 123456789 ∧ CompressAmount 0 = 0) :=
  ⟨by norm_num [U64],
   compressAmount_decompressAmount_roundtrip 123456789 (by norm_num [U64])⟩

/-! ## Merkle engine (`CBlock::BuildMerkleTree` / `GetMerkleBranch` /
`CheckMerkleBranch`, `src/core.cpp:307-355`)

The pair-combining hash `Hash(BEGIN(left), END(left), BEGIN(right), END(right))`
is an external collaborator; the engine is embedded generically over a
combiner `comb : α → α → α` and the zero hash `z` (`uint256 0`).

`BuildMerkleTree` pushes the transaction hashes as level 0 of the flat
`vMerkleTree` array and then, while the current level has `nSize > 1`
entries, pushes the next level: for `i = 0, 2, ...`, the hash of
`(level[i], level[min (i+1) (nSize-1)])` — i.e. adjacent pairs, with an
unpaired last element paired with itself.  It returns 0 for an empty
transaction list and otherwise `vMerkleTree.back()`, the single hash of the
topmost level.  The imperative level loop becomes `merkleLevel`; the flat
array's final element becomes the recursion `merkleRoot`, one recursive call
per outer loop iteration. -/

/-- Parity facts about the `nIndex ^ 1` sibling computation of
`GetMerkleBranch` (`src/core.cpp:334`): xor with 1 increments an even index
and decrements an odd one. -/
theorem xor_one_of_even (n : Nat) (h : n % 2 = 0) : n ^^^ 1 = n + 1 := by
  apply Nat.eq_of_testBit_eq
  intro i
  cases i with
  | zero => simp [Nat.testBit_zero]
  | succ j =>
    rw [Nat.testBit_xor]
    have h2 : (n + 1) / 2 = n / 2 := by omega
    simp [Nat.testBit_add_one, h2]

theorem xor_one_of_odd (n : Nat) (h : n % 2 = 1) : n ^^^ 1 = n - 1 := by
  apply Nat.eq_of_testBit_eq
  intro i
  cases i with
  | zero => simp [Nat.testBit_zero]; omega
  | succ j =>
    rw [Nat.testBit_xor]
    have h2 : (n - 1) / 2 = n / 2 := by omega
    simp [Nat.testBit_add_one, h2]

variable {α τ : Type}

/-- One level step of `BuildMerkleTree`'s outer loop (`src/core.cpp:315-320`):
combine `(level[i], level[min (i+1) (nSize-1)])` for `i = 0, 2, ...` — adjacent
pairs, the unpaired last element of an odd-size level combined with itself. -/
def merkleLevel (comb : α → α → α) : List α → List α
  | [] => []
  | [x] => [comb x x]
  | x :: y :: rest => comb x y :: merkleLevel comb rest

theorem merkleLevel_length (comb : α → α → α) :
    ∀ l : List α, (merkleLevel comb l).length = (l.length + 1) / 2
  | [] => by simp [merkleLevel]
  | [_] => by simp [merkleLevel]
  | _ :: _ :: rest => by
      simp [merkleLevel, merkleLevel_length comb rest]
      omega

/-- The value `BuildMerkleTree` returns (`src/core.cpp:313-323`): 0 (here `z`)
for no transactions, else the result of folding `merkleLevel` while the level
size exceeds 1 — `vMerkleTree.back()`, the lone hash of the topmost level. -/
def merkleRoot (comb : α → α → α) (z : α) : List α → α
  | [] => z
  | [x] => x
  | x :: y :: rest => merkleRoot comb z (merkleLevel comb (x :: y :: rest))
termination_by l => l.length
decreasing_by simp [merkleLevel_length]; omega

/-- `CBlock::GetMerkleBranch` (`src/core.cpp:326-340`) on the leaf level `l`:
while the level size exceeds 1, record `level[min (nIndex ^ 1) (nSize - 1)]`
(the sibling, with the self-pairing rule at an odd tail), then halve the
index and move up one level.  The flat-array indexing `vMerkleTree[j + i]`
(where `j` marks the current level's start) is the indexing of the current
level here. -/
def getMerkleBranch (comb : α → α → α) (z : α) (l : List α) (idx : Nat) : List α :=
  if l.length ≤ 1 then []
  else
    l.getD (min (idx ^^^ 1) (l.length - 1)) z ::
      getMerkleBranch comb z (merkleLevel comb l) (idx / 2)
termination_by l.length
decreasing_by simp [merkleLevel_length]; omega

/-- The branch-replay loop of `CBlock::CheckMerkleBranch`
(`src/core.cpp:346-353`): combine the running hash with each sibling, on the
right if the current index bit (`nIndex & 1`) is set and on the left
otherwise, shifting the index right each step. -/
def checkMerkleBranchGo (comb : α → α → α) : α → List α → Nat → α
  | h, [], _ => h
  | h, o :: rest, idx =>
      checkMerkleBranchGo comb (if idx &&& 1 = 1 then comb o h else comb h o) rest (idx / 2)

/-- `CBlock::CheckMerkleBranch` (`src/core.cpp:342-355`): the sentinel
`nIndex == -1` yields 0 (here `z`) without consuming the branch; otherwise
replay the branch.  Callers only ever pass `-1` or a valid non-negative leaf
index, which `Int.toNat` maps faithfully. -/
def checkMerkleBranch (comb : α → α → α) (z : α) (h : α) (branch : List α)
    (nIndex : Int) : α :=
  if nIndex = -1 then z else checkMerkleBranchGo comb h branch nIndex.toNat

/-- Each entry of a `merkleLevel` is the combination of the matching adjacent
pair of the level below, with the `min`-clamped right operand. -/
theorem merkleLevel_getD (comb : α → α → α) (z : α) :
    ∀ (l : List α) (k : Nat), 2 * k < l.length →
      (merkleLevel comb l).getD k z
        = comb (l.getD (2 * k) z) (l.getD (min (2 * k + 1) (l.length - 1)) z)
  | [], k, h => by simp at h
  | [x], k, h => by
      have hk : k = 0 := by simp at h; omega
      subst hk
      simp [merkleLevel]
  | x :: y :: rest, 0, h => by simp [merkleLevel]
  | x :: y :: rest, (k + 1), h => by
      have hlen : 2 * k < rest.length := by simp at h; omega
      have ih := merkleLevel_getD comb z rest k hlen
      have e1 : 2 * (k + 1) = 2 * k + 1 + 1 := by ring
      have e2 : min (2 * (k + 1) + 1) ((x :: y :: rest).length - 1)
          = min (2 * k + 1) (rest.length - 1) + 1 + 1 := by
        simp only [List.length_cons]
        omega
      rw [e2, e1]
      simp only [merkleLevel, List.getD_cons_succ]
      exact ih

/-- One `CheckMerkleBranch` combination step, applied to the recorded sibling
and the current node, lands exactly on the parent entry of the next level. -/
theorem branch_step (comb : α → α → α) (z : α) (l : List α) (idx : Nat)
    (h2 : 2 ≤ l.length) (hidx : idx < l.length) :
    (if idx &&& 1 = 1 then
        comb (l.getD (min (idx ^^^ 1) (l.length - 1)) z) (l.getD idx z)
      else
        comb (l.getD idx z) (l.getD (min (idx ^^^ 1) (l.length - 1)) z))
      = (merkleLevel comb l).getD (idx / 2) z := by
  rcases Nat.even_or_odd idx with hpar | hpar
  · have hm : idx % 2 = 0 := Nat.even_iff.mp hpar
    rw [if_neg (by rw [Nat.and_one_is_mod]; omega)]
    rw [xor_one_of_even idx hm]
    rw [merkleLevel_getD comb z l (idx / 2) (by omega)]
    have e1 : 2 * (idx / 2) = idx := by omega
    rw [e1]
  · have hm : idx % 2 = 1 := Nat.odd_iff.mp hpar
    rw [if_pos (by rw [Nat.and_one_is_mod]; omega)]
    rw [xor_one_of_odd idx hm]
    rw [merkleLevel_getD comb z l (idx / 2) (by omega)]
    have e1 : 2 * (idx / 2) = idx - 1 := by omega
    have e2 : min (2 * (idx / 2) + 1) (l.length - 1) = idx := by omega
    have e3 : min (idx - 1) (l.length - 1) = idx - 1 := by omega
    rw [e2, e1, e3]

theorem merkleRoot_level (comb : α → α → α) (z : α) (l : List α) (h : 2 ≤ l.length) :
    merkleRoot comb z l = merkleRoot comb z (merkleLevel comb l) := by
  match l with
  | x :: y :: rest => rw [merkleRoot]

/-- Replaying the recorded branch from leaf `idx` reaches the root. -/
theorem merkle_branch_roundtrip (comb : α → α → α) (z : α) :
    ∀ (l : List α) (idx : Nat), idx < l.length →
      checkMerkleBranchGo comb (l.getD idx z) (getMerkleBranch comb z l idx) idx
        = merkleRoot comb z l
  | l, idx, hidx => by
    by_cases h1 : l.length ≤ 1
    · obtain ⟨x, rfl⟩ : ∃ x, l = [x] := by
        match l with
        | [] => simp at hidx
        | [x] => exact ⟨x, rfl⟩
        | x :: y :: rest => simp at h1
      have : idx = 0 := by simp at hidx; omega
      subst this
      simp [getMerkleBranch, checkMerkleBranchGo, merkleRoot]
    · rw [getMerkleBranch, if_neg h1, checkMerkleBranchGo]
      rw [branch_step comb z l idx (by omega) hidx]
      have hlt : idx / 2 < (merkleLevel comb l).length := by
        rw [merkleLevel_length]
        omega
      rw [merkle_branch_roundtrip comb z (merkleLevel comb l) (idx / 2) hlt]
      exact (merkleRoot_level comb z l (by omega)).symm
termination_by l => l.length
decreasing_by simp [merkleLevel_length]; omega

/-- `CBlock::BuildMerkleTree` (`src/core.cpp:307-324`): level 0 is the hash of
each transaction in order (`tx.GetHash()`, an external collaborator). -/
def CBlock.BuildMerkleTree (comb : α → α → α) (z : α) (txGetHash : τ → α)
    (vtx : List τ) : α :=
  merkleRoot comb z (vtx.map txGetHash)

/-- `CBlock::GetMerkleBranch` (`src/core.cpp:326-340`), starting from the
transaction-hash level of the cached tree. -/
def CBlock.GetMerkleBranch (comb : α → α → α) (z : α) (txGetHash : τ → α)
    (vtx : List τ) (nIndex : Nat) : List α :=
  getMerkleBranch comb z (vtx.map txGetHash) nIndex

/-- `CBlock::CheckMerkleBranch` (`src/core.cpp:342-355`). -/
def CBlock.CheckMerkleBranch (comb : α → α → α) (z : α) (hash : α)
    (branch : List α) (nIndex : Int) : α :=
  checkMerkleBranch comb z hash branch nIndex

/-- A concrete stand-in pair combiner used to instantiate the generic engine
in witnesses. -/
def hashPair (a b : Nat) : Nat := 2 * a + 3 * b + 1

/-- C2: for every non-empty transaction list and valid index `i`, replaying
the branch `GetMerkleBranch i` from the hash of transaction `i` via
`CheckMerkleBranch (hash (tx i)) branch i` yields exactly the root returned
by `BuildMerkleTree`. -/
theorem checkMerkleBranch_getMerkleBranch_roundtrip (comb : α → α → α) (z : α)
    (txGetHash : τ → α) (t0 : τ) (vtx : List τ) (i : Nat)
    (hne : vtx ≠ []) (hi : i < vtx.length) :
    CBlock.CheckMerkleBranch comb z (txGetHash (vtx.getD i t0))
        (CBlock.GetMerkleBranch comb z txGetHash vtx i) (i : Int)
      = CBlock.BuildMerkleTree comb z txGetHash vtx := by
  clear hne
  have h1 : vtx[i]? = some vtx[i] := List.getElem?_eq_getElem hi
  have hmap : (vtx.map txGetHash).getD i z = txGetHash (vtx.getD i t0) := by
    simp [List.getD_eq_getElem?_getD, List.getElem?_map, h1]
  rw [CBlock.CheckMerkleBranch, checkMerkleBranch, if_neg (by omega),
    Int.toNat_natCast, CBlock.GetMerkleBranch, CBlock.BuildMerkleTree, ← hmap]
  exact merkle_branch_roundtrip comb z _ i (by simpa using hi)

/-- C2 witness: the branch round trip on the three-leaf list `[5, 7, 11]` at
index 1. -/
theorem checkMerkleBranch_getMerkleBranch_roundtrip_witness :
    ([5, 7, 11] : List Nat) ≠ [] ∧ 1 < ([5, 7, 11] : List Nat).length ∧
      CBlock.CheckMerkleBranch hashPair 0 (id (([5, 7, 11] : List Nat).getD 1 0))
          (CBlock.GetMerkleBranch hashPair 0 id [5, 7, 11] 1) ((1 : Nat) : Int)
        = CBlock.BuildMerkleTree hashPair 0 id [5, 7, 11] :=
  ⟨by decide, by decide,
    checkMerkleBranch_getMerkleBranch_roundtrip hashPair 0 id 0 [5, 7, 11] 1
      (by decide) (by decide)⟩

/-- C3: `BuildMerkleTree` returns 0 (the zero hash `z`) on an empty
transaction list; each level entry combines the adjacent pair below it; the
last entry of an odd-count level is combined with itself (duplicated, never
dropped); and the root of a multi-element level is the root of the level
built from it. -/
theorem buildMerkleTree_structure (comb : α → α → α) (z : α) (txGetHash : τ → α) :
    CBlock.BuildMerkleTree comb z txGetHash ([] : List τ) = z ∧
    (∀ (l : List α) (k : Nat), 2 * k + 1 < l.length →
      (merkleLevel comb l).getD k z = comb (l.getD (2 * k) z) (l.getD (2 * k + 1) z)) ∧
    (∀ l : List α, l.length % 2 = 1 →
      (merkleLevel comb l).getD (l.length / 2) z
        = comb (l.getD (l.length - 1) z) (l.getD (l.length - 1) z)) ∧
    (∀ (x y : α) (rest : List α),
      merkleRoot comb z (x :: y :: rest)
        = merkleRoot comb z (merkleLevel comb (x :: y :: rest))) := by
  refine ⟨by simp [CBlock.BuildMerkleTree, merkleRoot], ?_, ?_, ?_⟩
  · intro l k hk
    rw [merkleLevel_getD comb z l k (by omega)]
    have e : min (2 * k + 1) (l.length - 1) = 2 * k + 1 := by omega
    rw [e]
  · intro l hodd
    have hlen : 0 < l.length := by omega
    rw [merkleLevel_getD comb z l (l.length / 2) (by omega)]
    have e1 : 2 * (l.length / 2) = l.length - 1 := by omega
    have e2 : min (2 * (l.length / 2) + 1) (l.length - 1) = l.length - 1 := by omega
    rw [e2, e1]
  · intro x y rest
    rw [merkleRoot]

/-- C3 witness: the empty-list root, the pairing of entries 0 and 1, and the
self-pairing of the odd tail, all on the concrete list `[5, 7, 11]`. -/
theorem buildMerkleTree_structure_witness :
    CBlock.BuildMerkleTree hashPair 0 id ([] : List Nat) = 0 ∧
      (2 * 0 + 1 < ([5, 7, 11] : List Nat).length ∧
        (merkleLevel hashPair [5, 7, 11]).getD 0 0
          = hashPair (([5, 7, 11] : List Nat).getD (2 * 0) 0)
              (([5, 7, 11] : List Nat).getD (2 * 0 + 1) 0)) ∧
      (([5, 7, 11] : List Nat).length % 2 = 1 ∧
        (merkleLevel hashPair [5, 7, 11]).getD (([5, 7, 11] : List Nat).length / 2) 0
          = hashPair (([5, 7, 11] : List Nat).getD (([5, 7, 11] : List Nat).length - 1) 0)
              (([5, 7, 11] : List Nat).getD (([5, 7, 11] : List Nat).length - 1) 0)) :=
  ⟨(buildMerkleTree_structure hashPair 0 id).1,
   ⟨by decide, (buildMerkleTree_structure hashPair 0 id).2.1 [5, 7, 11] 0 (by decide)⟩,
   ⟨by decide, (buildMerkleTree_structure hashPair 0 id).2.2.1 [5, 7, 11] (by decide)⟩⟩

/-! ## Coin entry model (`CCoins::CalcMaskSize` / `CCoins::Spend`,
`src/core.cpp:189-227`)

The data types `COutPoint`, `CTxOut`, `CTxInUndo` and `CCoins` are declared
in `core.h`, which is not part of this repository snapshot; their fields and
sentinel conventions follow the spec's data model.  Hash values are `Nat`,
`int64`/`int` fields are `Int` (no arithmetic is performed on them here, so
no wrap is involved). -/

/-- Modelled from the spec: `COutPoint` (declared in the missing `core.h`)
identifies a spendable output by `(transactionHash, outputIndex)`. -/
structure COutPoint where
  hash : Nat
  n : Nat
deriving DecidableEq

/-- Modelled from the spec: `CTxOut` (declared in the missing `core.h`) is
`(value, lockingScript)`, the script a plain byte string. -/
structure CTxOut where
  nValue : Int
  scriptPubKey : List Nat
deriving DecidableEq

/-- Modelled from the spec: the state `CTxOut::SetNull` (missing `core.h`)
leaves behind — the spent-output sentinel, a negative value with an empty
script, distinct from a genuinely zero-value unspent output. -/
def CTxOut.SetNull : CTxOut := { nValue := -1, scriptPubKey := [] }

/-- Modelled from the spec: `CTxOut::IsNull` (missing `core.h`) recognises
the negative-value spent sentinel. -/
def CTxOut.IsNull (t : CTxOut) : Bool := t.nValue < 0

/-- Modelled from the spec: `CTxInUndo` (missing `core.h`) snapshots one
previously-live output plus, only for an entry-emptying spend, the entry's
`(version, isCoinbase, creationHeight)`. -/
structure CTxInUndo where
  txout : CTxOut
  fCoinBase : Bool
  nHeight : Int
  nVersion : Int
deriving DecidableEq

/-- Modelled from the spec: the `CTxInUndo(const CTxOut&)` constructor used
at `src/core.cpp:212` — the captured output with default metadata. -/
def CTxInUndo.ofTxOut (t : CTxOut) : CTxInUndo :=
  { txout := t, fCoinBase := false, nHeight := 0, nVersion := 0 }

/-- Modelled from the spec: `CCoins` (missing `core.h`) — one transaction's
unspent-output set: `(version, isCoinbase, creationHeight, outputs)`. -/
structure CCoins where
  fCoinBase : Bool
  vout : List CTxOut
  nHeight : Int
  nVersion : Int
deriving DecidableEq

/-- Modelled from the spec: `CCoins::Cleanup` (missing `core.h`) trims
trailing null outputs. -/
def Cleanup (vout : List CTxOut) : List CTxOut :=
  (vout.reverse.dropWhile (fun t => t.IsNull)).reverse

/-- `CCoins::Spend` (`src/core.cpp:207-221`): fail on an out-of-range index
or an already-null output; otherwise capture the output into the undo
record, null it in place, run Cleanup, and if the entry became empty copy
`(nHeight, fCoinBase, nVersion)` into the undo record.  The C++ mutates the
entry and returns `bool`; embedded as `Option (CTxInUndo × CCoins)`, `none`
being the `false` (entry untouched) outcome. -/
def CCoins.Spend (c : CCoins) (out : COutPoint) : Option (CTxInUndo × CCoins) :=
  if hn : out.n < c.vout.length then
    if (c.vout.get ⟨out.n, hn⟩).IsNull then none
    else
      let undo0 := CTxInUndo.ofTxOut (c.vout.get ⟨out.n, hn⟩)
      let vout' := Cleanup (c.vout.set out.n CTxOut.SetNull)
      let undo :=
        if vout'.length = 0 then
          { undo0 with
              nHeight := c.nHeight, fCoinBase := c.fCoinBase, nVersion := c.nVersion }
        else undo0
      some (undo, { c with vout := vout' })
  else none

/-- C8: `Spend` fails exactly when the index is out of range or the output is
already null (the entry unchanged — `none` carries no new state); on success
the undo record captures the live output, the output slot is nulled in place
and trailing nulls trimmed, the entry's other fields are untouched, and the
undo record carries `(version, isCoinbase, creationHeight)` exactly when the
entry became fully empty (default metadata otherwise). -/
theorem spend_correct (c : CCoins) (out : COutPoint) :
    (c.Spend out = none ↔
      c.vout.length ≤ out.n ∨ (c.vout.getD out.n CTxOut.SetNull).IsNull = true) ∧
    (∀ undo c', c.Spend out = some (undo, c') →
      undo.txout = c.vout.getD out.n CTxOut.SetNull ∧
      undo.txout.IsNull = false ∧
      c'.vout = Cleanup (c.vout.set out.n CTxOut.SetNull) ∧
      c'.fCoinBase = c.fCoinBase ∧ c'.nHeight = c.nHeight ∧ c'.nVersion = c.nVersion ∧
      (c'.vout = [] →
        undo.nHeight = c.nHeight ∧ undo.fCoinBase = c.fCoinBase ∧
          undo.nVersion = c.nVersion) ∧
      (c'.vout ≠ [] →
        undo.nHeight = 0 ∧ undo.fCoinBase = false ∧ undo.nVersion = 0)) := by
  constructor
  · rw [CCoins.Spend]
    split
    · rename_i hn
      have hgd : c.vout.getD out.n CTxOut.SetNull = c.vout.get ⟨out.n, hn⟩ := by
        simp [List.getD_eq_getElem?_getD, List.getElem?_eq_getElem hn]
      rw [hgd]
      split
      · rename_i hnull
        simp [hnull]
        exact Or.inr hnull
      · rename_i hnull
        simp [hnull]
        exact ⟨hn, by simpa using hnull⟩
    · rename_i hn
      simp
      omega
  · intro undo c' hsp
    rw [CCoins.Spend] at hsp
    split at hsp
    · rename_i hn
      have hgd : c.vout.getD out.n CTxOut.SetNull = c.vout.get ⟨out.n, hn⟩ := by
        simp [List.getD_eq_getElem?_getD, List.getElem?_eq_getElem hn]
      split at hsp
      · exact absurd hsp (by simp)
      · rename_i hnull
        simp only [Option.some.injEq, Prod.mk.injEq] at hsp
        obtain ⟨hu, hc⟩ := hsp
        subst hc
        refine ⟨?_, ?_, rfl, rfl, rfl, rfl, ?_, ?_⟩
        · rw [hgd, ← hu]
          split <;> rfl
        · rw [← hu]
          split <;> simpa using hnull
        · intro hempty
          rw [← hu]
          rw [if_pos (by simpa using congrArg List.length hempty)]
          exact ⟨rfl, rfl, rfl⟩
        · intro hne
          rw [← hu]
          rw [if_neg (by simpa using (List.length_eq_zero.not.mpr hne))]
          exact ⟨rfl, rfl, rfl⟩
    · exact absurd hsp (by simp)

/-- The concrete one-output coin entry used in the C8 witness. -/
def coinW : CCoins :=
  { fCoinBase := true, vout := [{ nValue := 7, scriptPubKey := [1] }],
    nHeight := 42, nVersion := 3 }

def outW : COutPoint := { hash := 0, n := 0 }

/-- Spending `coinW`'s only output: the expected undo record. -/
def undoW : CTxInUndo :=
  { txout := { nValue := 7, scriptPubKey := [1] },
    fCoinBase := true, nHeight := 42, nVersion := 3 }

/-- Spending `coinW`'s only output: the expected (pruned-empty) entry. -/
def coinW' : CCoins :=
  { fCoinBase := true, vout := [], nHeight := 42, nVersion := 3 }

/-- C8 witness: spending the last live output of a concrete entry prunes it
and the undo record carries the entry's metadata. -/
theorem spend_correct_witness :
    coinW.Spend outW = some (undoW, coinW') ∧
      (undoW.txout = coinW.vout.getD outW.n CTxOut.SetNull ∧
        undoW.txout.IsNull = false ∧
        coinW'.vout = Cleanup (coinW.vout.set outW.n CTxOut.SetNull) ∧
        coinW'.fCoinBase = coinW.fCoinBase ∧ coinW'.nHeight = coinW.nHeight ∧
        coinW'.nVersion = coinW.nVersion ∧
        (coinW'.vout = [] → undoW.nHeight = coinW.nHeight ∧
          undoW.fCoinBase = coinW.fCoinBase ∧ undoW.nVersion = coinW.nVersion) ∧
        (coinW'.vout ≠ [] → undoW.nHeight = 0 ∧ undoW.fCoinBase = false ∧
          undoW.nVersion = 0)) :=
  ⟨by decide, (spend_correct coinW outW).2 undoW coinW' (by decide)⟩

/-- The inner loop of `CCoins::CalcMaskSize` (`src/core.cpp:192-198`): scan
the up-to-8 outputs covered by bitmask byte `b` for a non-null one.  Slots
past the end of `vout` (the loop bound `2+b*8+i < vout.size()`) contribute
nothing, which the null default of `getD` reproduces. -/
def maskByteUsed (vout : List CTxOut) (b : Nat) : Bool :=
  (List.range 8).any fun i => !(vout.getD (2 + b * 8 + i) CTxOut.SetNull).IsNull

/-- One iteration of `CalcMaskSize`'s outer loop (`src/core.cpp:199-202`) on
the accumulator `(nLastUsedByte, nNonzeroBytes)`. -/
def calcStep (vout : List CTxOut) (acc : Nat × Nat) (b : Nat) : Nat × Nat :=
  if maskByteUsed vout b then (b + 1, acc.2 + 1) else acc

/-- `CCoins::CalcMaskSize` (`src/core.cpp:189-205`): fold the outer loop over
`b` with `2 + b*8 < vout.size()` — i.e. `b < (size - 2 + 7) / 8` — and
return `(nBytes, nNonzeroBytes)`.  The C++ adds into caller-supplied
references initialised to zero; embedded as a returned pair from `(0, 0)`. -/
def CalcMaskSize (vout : List CTxOut) : Nat × Nat :=
  (List.range ((vout.length - 2 + 7) / 8)).foldl (calcStep vout) (0, 0)

/-- The spec's notion of bitmask byte `b` being "used": some in-range output
among the 8 slots it covers (outputs `2 + b*8` through `2 + b*8 + 7`;
outputs 0 and 1 are tracked outside the bitmask) is non-null. -/
def GroupUsed (vout : List CTxOut) (b : Nat) : Prop :=
  ∃ i < 8, 2 + b * 8 + i < vout.length ∧
    (vout.getD (2 + b * 8 + i) CTxOut.SetNull).IsNull = false

instance (vout : List CTxOut) (b : Nat) : Decidable (GroupUsed vout b) := by
  unfold GroupUsed
  infer_instance

theorem maskByteUsed_iff (vout : List CTxOut) (b : Nat) :
    maskByteUsed vout b = true ↔ GroupUsed vout b := by
  rw [maskByteUsed, List.any_eq_true]
  constructor
  · rintro ⟨i, hi, hne⟩
    rw [List.mem_range] at hi
    refine ⟨i, hi, ?_, by simpa using hne⟩
    by_contra hge
    rw [List.getD_eq_default _ _ (by omega)] at hne
    simp [CTxOut.SetNull, CTxOut.IsNull] at hne
  · rintro ⟨i, hi, _, hne⟩
    exact ⟨i, List.mem_range.mpr hi, by simpa using hne⟩

/-- Invariant of `CalcMaskSize`'s fold after `n` outer-loop iterations:
the second component counts the used bytes seen, and the first component is
one past the last used byte (0 when none was used). -/
theorem calcMaskSize_fold (vout : List CTxOut) (n : Nat) :
    ((List.range n).foldl (calcStep vout) (0, 0)).2
      = ((List.range n).filter (maskByteUsed vout)).length ∧
    (∀ b < n, maskByteUsed vout b = true →
      b + 1 ≤ ((List.range n).foldl (calcStep vout) (0, 0)).1) ∧
    (((List.range n).foldl (calcStep vout) (0, 0)).1 ≠ 0 →
      ((List.range n).foldl (calcStep vout) (0, 0)).1 - 1 < n ∧
      maskByteUsed vout
        (((List.range n).foldl (calcStep vout) (0, 0)).1 - 1) = true) := by
  induction n with
  | zero => simp
  | succ k ih =>
    obtain ⟨ih1, ih2, ih3⟩ := ih
    rw [List.range_succ, List.foldl_append, List.filter_append,
      List.foldl_cons, List.foldl_nil, List.length_append, calcStep]
    cases hk : maskByteUsed vout k with
    | true =>
      rw [if_pos rfl]
      refine ⟨?_, ?_, ?_⟩
      · rw [ih1]
        have hf : List.filter (maskByteUsed vout) [k] = [k] := by simp [hk]
        rw [hf, List.length_singleton]
      · intro b hb _
        omega
      · intro _
        refine ⟨by omega, ?_⟩
        simpa using hk
    | false =>
      rw [if_neg (by simp [hk])]
      refine ⟨?_, ?_, ?_⟩
      · rw [ih1]
        have hf : List.filter (maskByteUsed vout) [k] = [] := by simp [hk]
        rw [hf, List.length_nil, Nat.add_zero]
      · intro b hb hu
        rcases Nat.lt_succ_iff_lt_or_eq.mp hb with h | h
        · exact ih2 b h hu
        · subst h
          rw [hu] at hk
          simp at hk
      · intro hne
        obtain ⟨hlt, hu⟩ := ih3 hne
        exact ⟨by omega, hu⟩

/-- A byte index past the outer loop's bound covers no in-range output. -/
theorem groupUsed_beyond (vout : List CTxOut) (b : Nat)
    (hb : (vout.length - 2 + 7) / 8 ≤ b) : ¬GroupUsed vout b := by
  rintro ⟨i, hi8, hilen, _⟩
  omega

/-- C9: `CalcMaskSize` is a pure function of the outputs whose byte-used
test agrees with "some of the 8 covered slots (outputs 0 and 1 excluded) is
non-null"; its `nNonzeroBytes` is the count of used bytes, and its `nBytes`
is the index of the last used byte plus one — every used byte lies below it,
it is itself a used byte's successor when non-zero, and it is 0 exactly when
no byte is used. -/
theorem calcMaskSize_correct (vout : List CTxOut) :
    (∀ b, maskByteUsed vout b = true ↔ GroupUsed vout b) ∧
    (CalcMaskSize vout).2
      = ((List.range ((vout.length - 2 + 7) / 8)).filter (maskByteUsed vout)).length ∧
    (∀ b, GroupUsed vout b → b + 1 ≤ (CalcMaskSize vout).1) ∧
    ((CalcMaskSize vout).1 ≠ 0 → GroupUsed vout ((CalcMaskSize vout).1 - 1)) ∧
    ((∀ b, ¬GroupUsed vout b) → (CalcMaskSize vout).1 = 0) := by
  obtain ⟨h1, h2, h3⟩ := calcMaskSize_fold vout ((vout.length - 2 + 7) / 8)
  refine ⟨maskByteUsed_iff vout, h1, ?_, ?_, ?_⟩
  · intro b hb
    have hblt : b < (vout.length - 2 + 7) / 8 := by
      by_contra hge
      exact groupUsed_beyond vout b (by omega) hb
    exact h2 b hblt ((maskByteUsed_iff vout b).mpr hb)
  · intro hne
    exact (maskByteUsed_iff vout _).mp (h3 hne).2
  · intro hnone
    by_contra hne
    exact hnone _ ((maskByteUsed_iff vout _).mp (h3 hne).2)

/-- Eleven outputs: 0 and 1 are outside the bitmask, byte 0 (outputs 2-9) is
all null, byte 1 (output 10) holds the one live output. -/
def voutW : List CTxOut :=
  [CTxOut.SetNull, CTxOut.SetNull, CTxOut.SetNull, CTxOut.SetNull, CTxOut.SetNull,
   CTxOut.SetNull, CTxOut.SetNull, CTxOut.SetNull, CTxOut.SetNull, CTxOut.SetNull,
   { nValue := 5, scriptPubKey := [2] }]

/-- C9 witness: on `voutW`, byte 1 is used, so `nBytes` is at least 2 and
points one past a used byte. -/
theorem calcMaskSize_correct_witness :
    GroupUsed voutW 1 ∧ 1 + 1 ≤ (CalcMaskSize voutW).1 ∧
      ((CalcMaskSize voutW).1 ≠ 0 ∧ GroupUsed voutW ((CalcMaskSize voutW).1 - 1)) :=
  ⟨by decide, (calcMaskSize_correct voutW).2.2.1 1 (by decide),
    by decide, (calcMaskSize_correct voutW).2.2.2.1 (by decide)⟩

/-! ## Proof-of-work verifier (`CheckProofOfWork`, `GetAuxPowStartBlock`,
`CBlockHeader::CheckProofOfWork`, `src/core.cpp:229-305`)

The auxiliary proof-of-work record (`CAuxPow`, from `auxpow.h`) is an opaque
collaborator: an abstract type `π` with its `Check` predicate and
`GetParentBlockHash` accessor supplied through the environment, together
with the other externals (`TestNet()`, `GetOurChainID()`,
`CBigNum::SetCompact`, `Params().ProofOfWorkLimit()`, and the Skein header
hash). -/

variable {π : Type}

/-- The block header (`core.h`): fields `(nVersion .. nNonce)` per the spec's
data model, plus the optionally attached auxiliary record.  Hash words are
`Nat`. -/
structure CBlockHeader (π : Type) where
  nVersion : Int
  hashPrevBlock : Nat
  hashMerkleRoot : Nat
  nTime : Nat
  nBits : Nat
  nNonce : Nat
  auxpow : Option π

/-- The external collaborators of the proof-of-work verifier, as an explicit
immutable environment: network flags and parameters, the compact-target
decoder, the header hash function, and the auxiliary record's contract. -/
structure PowEnv (π : Type) where
  fTestNet : Bool
  ownChainID : Int
  setCompact : Nat → Int
  powLimit : Int
  headerHash : CBlockHeader π → Nat
  auxCheck : π → Nat → Int → Bool
  auxParentHash : π → Nat

/-- Modelled from the spec: `CBlockHeader::GetChainID` (missing `core.h`)
decodes the chain identity from the upper bits of the version field — the
version divided by `2^16`. -/
def CBlockHeader.GetChainID (h : CBlockHeader π) : Int := h.nVersion / 65536

/-- `GetAuxPowStartBlock` (`src/core.cpp:229-235`): always on for the test
network, height 1000000 ("never") otherwise. -/
def GetAuxPowStartBlock (env : PowEnv π) : Int :=
  if env.fTestNet then 0 else 1000000

/-- The base `::CheckProofOfWork(hash, nBits)` (`src/core.cpp:237-251`):
decode the compact target; fail if it is non-positive or above the network's
proof-of-work limit; fail if the hash exceeds the target; else succeed. -/
def CheckProofOfWork (env : PowEnv π) (hash : Nat) (nBits : Nat) : Bool :=
  let bnTarget := env.setCompact nBits
  if bnTarget ≤ 0 ∨ bnTarget > env.powLimit then false
  else if (hash : Int) > bnTarget then false
  else true

/-- `CBlockHeader::CheckProofOfWork(int nHeight)` (`src/core.cpp:267-305`):
at/above the aux-pow activation height, require (unless on the test network
or called with `nHeight == INT_MAX`) the header's chain ID to equal our own;
then, with an attached auxiliary record, require `auxpow->Check(GetHash(),
GetChainID())` and the base check on the record's parent block hash, and
without one the base check on the header's own hash.  Below activation an
attached auxiliary record fails outright, else the base check on the
header's own hash decides.  Every `error(...)` return is `false`. -/
def CBlockHeader.CheckProofOfWork (h : CBlockHeader π) (env : PowEnv π)
    (nHeight : Int) : Bool :=
  if nHeight ≥ GetAuxPowStartBlock env then
    if env.fTestNet = false ∧ nHeight ≠ 2147483647 ∧ h.GetChainID ≠ env.ownChainID then
      false
    else
      match h.auxpow with
      | some ap =>
          if ¬ env.auxCheck ap (env.headerHash h) h.GetChainID = true then false
          else if ¬ Skeincoin.CheckProofOfWork env (env.auxParentHash ap) h.nBits = true
            then false
          else true
      | none =>
          if ¬ Skeincoin.CheckProofOfWork env (env.headerHash h) h.nBits = true then false
          else true
  else
    match h.auxpow with
    | some _ => false
    | none =>
        if ¬ Skeincoin.CheckProofOfWork env (env.headerHash h) h.nBits = true then false
        else true

/-- C7: below the aux-pow activation height, an attached auxiliary record
fails the header check immediately ("AUX POW is not allowed at this block"),
and otherwise the check returns exactly the base proof-of-work verdict on
the header's own hash. -/
theorem checkProofOfWork_below_activation (env : PowEnv π) (h : CBlockHeader π)
    (nHeight : Int) (hlt : nHeight < GetAuxPowStartBlock env) :
    (∀ ap, h.auxpow = some ap → h.CheckProofOfWork env nHeight = false) ∧
    (h.auxpow = none →
      h.CheckProofOfWork env nHeight
        = Skeincoin.CheckProofOfWork env (env.headerHash h) h.nBits) := by
  constructor
  · intro ap hap
    rw [CBlockHeader.CheckProofOfWork, if_neg (by omega), hap]
  · intro hnone
    rw [CBlockHeader.CheckProofOfWork, if_neg (by omega), hnone]
    cases Skeincoin.CheckProofOfWork env (env.headerHash h) h.nBits <;> simp

/-- C5 (amended): at/above activation on the non-test network, the header
check fails whenever the header's decoded chain identity differs from our
own — provided the supplied height is not the `INT_MAX` sentinel, which the
source explicitly exempts from the comparison (see C10). -/
theorem checkProofOfWork_chainID_required (env : PowEnv π) (h : CBlockHeader π)
    (nHeight : Int) (hact : nHeight ≥ GetAuxPowStartBlock env)
    (htn : env.fTestNet = false) (hmax : nHeight ≠ 2147483647)
    (hid : h.GetChainID ≠ env.ownChainID) :
    h.CheckProofOfWork env nHeight = false := by
  rw [CBlockHeader.CheckProofOfWork, if_pos hact, if_pos ⟨htn, hmax, hid⟩]

/-- C6 (amended): at/above activation with an attached auxiliary record, the
header check succeeds only if the collaborator's `Check` succeeds — invoked
with the header's *declared* chain identity `GetChainID()` (which equals our
own chain ID whenever the identity comparison applies, but not on the test
network or at the `INT_MAX` sentinel) — and the base proof-of-work check
passes against the record's parent-chain block hash under the header's
`nBits`. -/
theorem checkProofOfWork_auxpow_requirements (env : PowEnv π) (h : CBlockHeader π)
    (nHeight : Int) (ap : π) (hact : nHeight ≥ GetAuxPowStartBlock env)
    (hap : h.auxpow = some ap)
    (hok : h.CheckProofOfWork env nHeight = true) :
    env.auxCheck ap (env.headerHash h) h.GetChainID = true ∧
      Skeincoin.CheckProofOfWork env (env.auxParentHash ap) h.nBits = true := by
  rw [CBlockHeader.CheckProofOfWork, if_pos hact, hap] at hok
  split at hok
  · exact absurd hok (by simp)
  · have hok2 : (if ¬ env.auxCheck ap (env.headerHash h) h.GetChainID = true then false
        else if ¬ Skeincoin.CheckProofOfWork env (env.auxParentHash ap) h.nBits = true
          then false
        else true) = true := hok
    split at hok2
    · exact absurd hok2 (by simp)
    · split at hok2
      · exact absurd hok2 (by simp)
      · rename_i h1 h2
        exact ⟨by simpa using h1, by simpa using h2⟩

/-- C10: on the non-test network, a header validated at the sentinel height
`INT_MAX` skips the chain-identity comparison entirely — with no auxiliary
record attached, the verdict is exactly the base check on the header's own
hash, even though the header's declared chain ID differs from our own. -/
theorem checkProofOfWork_intmax_skips_chainID (env : PowEnv π) (h : CBlockHeader π)
    (htn : env.fTestNet = false) (hid : h.GetChainID ≠ env.ownChainID)
    (hnone : h.auxpow = none) :
    h.CheckProofOfWork env 2147483647
      = Skeincoin.CheckProofOfWork env (env.headerHash h) h.nBits := by
  have hact : (2147483647 : Int) ≥ GetAuxPowStartBlock env := by
    rw [GetAuxPowStartBlock]
    split <;> omega
  rw [CBlockHeader.CheckProofOfWork, if_pos hact, if_neg (by simp), hnone]
  cases Skeincoin.CheckProofOfWork env (env.headerHash h) h.nBits <;> simp

/-- Concrete non-test-network environment: our chain ID is 1, every compact
target decodes to 1 within limit 100, all hashes are 0, and the aux record's
`Check` accepts exactly chain ID 2. -/
def envW : PowEnv Unit :=
  { fTestNet := false, ownChainID := 1,
    setCompact := fun _ => 1, powLimit := 100,
    headerHash := fun _ => 0,
    auxCheck := fun _ _ cid => decide (cid = 2),
    auxParentHash := fun _ => 0 }

/-- A header declaring chain ID 2 (version `2 * 2^16`), no aux record. -/
def hdrW : CBlockHeader Unit :=
  { nVersion := 131072, hashPrevBlock := 0, hashMerkleRoot := 0,
    nTime := 0, nBits := 0, nNonce := 0, auxpow := none }

/-- A header declaring chain ID 1 with an attached aux record. -/
def hdrW3 : CBlockHeader Unit :=
  { nVersion := 65536, hashPrevBlock := 0, hashMerkleRoot := 0,
    nTime := 0, nBits := 0, nNonce := 0, auxpow := some () }

/-- `envW` on the test network (aux-pow active from height 0). -/
def envW2 : PowEnv Unit :=
  { fTestNet := true, ownChainID := 1,
    setCompact := fun _ => 1, powLimit := 100,
    headerHash := fun _ => 0,
    auxCheck := fun _ _ cid => decide (cid = 2),
    auxParentHash := fun _ => 0 }

/-- A header declaring chain ID 2 with an attached aux record. -/
def hdrW2 : CBlockHeader Unit :=
  { nVersion := 131072, hashPrevBlock := 0, hashMerkleRoot := 0,
    nTime := 0, nBits := 0, nNonce := 0, auxpow := some () }

/-- C5 counterexample: on the non-test network at the in-range height
`INT_MAX = 2147483647` (≥ activation), a header whose declared chain ID 2
differs from our chain ID 1 still passes the header proof-of-work check, so
the claim's unconditional "fails whenever the chain identity differs" is
false as stated. -/
theorem checkProofOfWork_chainID_counterexample :
    envW.fTestNet = false ∧ (2147483647 : Int) ≥ GetAuxPowStartBlock envW ∧
      hdrW.GetChainID ≠ envW.ownChainID ∧
      hdrW.CheckProofOfWork envW 2147483647 = true := by decide

/-- C5 witness: at the non-sentinel height 1000000 the mismatched chain ID
is rejected. -/
theorem checkProofOfWork_chainID_required_witness :
    (1000000 : Int) ≥ GetAuxPowStartBlock envW ∧ envW.fTestNet = false ∧
      (1000000 : Int) ≠ 2147483647 ∧ hdrW.GetChainID ≠ envW.ownChainID ∧
      hdrW.CheckProofOfWork envW 1000000 = false :=
  ⟨by decide, by decide, by decide, by decide,
    checkProofOfWork_chainID_required envW hdrW 1000000 (by decide) (by decide)
      (by decide) (by decide)⟩

/-- C6 counterexample: on the test network (aux-pow active, identity check
skipped) a header declaring chain ID 2 validates although the collaborator's
`Check` invoked with *our* chain ID 1 — the call the claim prescribes —
fails: the source passes the header's declared `GetChainID()`, not
`GetOurChainID()`. -/
theorem checkProofOfWork_auxpow_chainID_counterexample :
    (0 : Int) ≥ GetAuxPowStartBlock envW2 ∧ hdrW2.auxpow = some () ∧
      hdrW2.CheckProofOfWork envW2 0 = true ∧
      envW2.auxCheck () (envW2.headerHash hdrW2) envW2.ownChainID = false := by decide

/-- C6 witness: a successful aux-pow header check implies the collaborator
accepted `(headerHash, declaredChainID)` and the base check passed on the
record's parent block hash. -/
theorem checkProofOfWork_auxpow_requirements_witness :
    (0 : Int) ≥ GetAuxPowStartBlock envW2 ∧ hdrW2.auxpow = some () ∧
      hdrW2.CheckProofOfWork envW2 0 = true ∧
      (envW2.auxCheck () (envW2.headerHash hdrW2) hdrW2.GetChainID = true ∧
        CheckProofOfWork envW2 (envW2.auxParentHash ()) hdrW2.nBits = true) :=
  ⟨by decide, by decide, by decide,
    checkProofOfWork_auxpow_requirements envW2 hdrW2 0 () (by decide) (by decide)
      (by decide)⟩

/-- C7 witness: at height 5, far below the non-test activation height, the
aux-carrying header fails and the plain header reduces to the base check. -/
theorem checkProofOfWork_below_activation_witness :
    (5 : Int) < GetAuxPowStartBlock envW ∧
      hdrW3.CheckProofOfWork envW 5 = false ∧
      hdrW.CheckProofOfWork envW 5
        = CheckProofOfWork envW (envW.headerHash hdrW) hdrW.nBits :=
  ⟨by decide,
    (checkProofOfWork_below_activation envW hdrW3 5 (by decide)).1 () rfl,
    (checkProofOfWork_below_activation envW hdrW 5 (by decide)).2 rfl⟩

/-- C10 witness: the concrete mismatched-chain-ID header of the C5
counterexample, at `INT_MAX`, reduces to the base check. -/
theorem checkProofOfWork_intmax_skips_chainID_witness :
    envW.fTestNet = false ∧ hdrW.GetChainID ≠ envW.ownChainID ∧ hdrW.auxpow = none ∧
      hdrW.CheckProofOfWork envW 2147483647
        = CheckProofOfWork envW (envW.headerHash hdrW) hdrW.nBits :=
  ⟨by decide, by decide, rfl,
    checkProofOfWork_intmax_skips_chainID envW hdrW (by decide) (by decide) rfl⟩

/-! ## Block structural validator (`CBlock::CheckBlock`, `src/core.cpp:357-413`)

`CValidationState` is an output channel: `state.DoS(n, error(...))` records a
misbehavior penalty and returns `false`, plain `error(...)` returns `false`
with no penalty.  Embedded as a result type carrying an optional penalty and
a reason.  The external collaborators (`GetSerializeSize`, `GetAdjustedTime`,
`CheckTransaction` — whose internal `state` effects are outside this model —
`GetLegacySigOpCount`, `CTransaction::GetHash`, the pair hash of the Merkle
tree, and the constants `MAX_BLOCK_SIZE` / `MAX_BLOCK_SIGOPS`) come from an
explicit environment. -/

/-- `CTxIn` (missing `core.h`): `(prevout, unlockingScript, sequence)`. -/
structure CTxIn where
  prevout : COutPoint
  scriptSig : List Nat
  nSequence : Nat
deriving DecidableEq

/-- `CTransaction` (missing `core.h`): `(version, inputs, outputs, lockTime)`. -/
structure CTransaction where
  nVersion : Int
  vin : List CTxIn
  vout : List CTxOut
  nLockTime : Nat
deriving DecidableEq

/-- Modelled from the spec: `COutPoint::IsNull` (missing `core.h`) — the
null outpoint is `(zero-hash, 0xFFFFFFFF)`, used only by coinbase inputs. -/
def COutPoint.IsNull (o : COutPoint) : Bool :=
  decide (o.hash = 0) && decide (o.n = 4294967295)

/-- Modelled from the spec: `CTransaction::IsCoinBase` (missing `core.h`) —
exactly one input, whose outpoint is null. -/
def CTransaction.IsCoinBase (tx : CTransaction) : Bool :=
  decide (tx.vin.length = 1) &&
    (match tx.vin with
     | [] => false
     | i :: _ => i.prevout.IsNull)

/-- A block: header plus ordered transactions (`CBlock`, `core.h`).  The
cached `vMerkleTree` is derived data, always recomputed here. -/
structure CBlock (π : Type) where
  header : CBlockHeader π
  vtx : List CTransaction

/-- The collaborators of the structural validator. -/
structure BlockEnv (π : Type) where
  pow : PowEnv π
  maxBlockSize : Nat
  serializeSize : CBlock π → Nat
  adjustedTime : Int
  checkTransaction : CTransaction → Bool
  legacySigOpCount : CTransaction → Nat
  maxSigOps : Nat
  txHash : CTransaction → Nat
  combineHash : Nat → Nat → Nat

/-- The distinct rejection reasons of `CheckBlock`, one per `error(...)`
string of `src/core.cpp:357-413` in source order. -/
inductive BlockError
  | sizeLimits | powFailed | timeTooNew | coinbaseMissing | multipleCoinbase
  | txCheckFailed | duplicateTx | sigOpsExceeded | merkleRootMismatch
deriving DecidableEq

/-- Accept, or reject with an optional misbehavior penalty (`state.DoS`
level; `none` for a plain `error(...)` rejection) and a reason. -/
inductive BlockResult
  | ok
  | reject (dos : Option Nat) (err : BlockError)
deriving DecidableEq

/-- `CBlock::CheckBlock` (`src/core.cpp:357-413`): the context-free checks in
source order — size limits (DoS 100), base proof of work on the header's own
hash (DoS 50), timestamp at most 2 hours past the adjusted clock (plain
error), first transaction coinbase and no other (DoS 100 each), every
transaction passing `CheckTransaction` (propagated), no duplicate
transaction hashes (DoS 100, the set-size comparison of lines 393-398),
total legacy sigop count within bound (DoS 100), and the rebuilt Merkle root
matching the header (DoS 100). -/
def CheckBlock (env : BlockEnv π) (b : CBlock π) : BlockResult :=
  if b.vtx = [] ∨ b.vtx.length > env.maxBlockSize ∨ env.serializeSize b > env.maxBlockSize
    then .reject (some 100) .sizeLimits
  else if ¬ Skeincoin.CheckProofOfWork env.pow (env.pow.headerHash b.header)
      b.header.nBits = true then .reject (some 50) .powFailed
  else if (b.header.nTime : Int) > env.adjustedTime + 2 * 60 * 60 then
    .reject none .timeTooNew
  else if b.vtx = [] ∨ ¬ (match b.vtx with
      | [] => false
      | t :: _ => t.IsCoinBase) = true then .reject (some 100) .coinbaseMissing
  else if (b.vtx.drop 1).any CTransaction.IsCoinBase = true then
    .reject (some 100) .multipleCoinbase
  else if ¬ b.vtx.all env.checkTransaction = true then .reject none .txCheckFailed
  else if ¬ (b.vtx.map env.txHash).Nodup then .reject (some 100) .duplicateTx
  else if (b.vtx.map env.legacySigOpCount).sum > env.maxSigOps then
    .reject (some 100) .sigOpsExceeded
  else if b.header.hashMerkleRoot ≠ merkleRoot env.combineHash 0 (b.vtx.map env.txHash)
    then .reject (some 100) .merkleRootMismatch
  else .ok

/-- A block `CheckBlock` accepts has pairwise-distinct transaction hashes. -/
theorem checkBlock_ok_nodup (env : BlockEnv π) (b : CBlock π)
    (hok : CheckBlock env b = .ok) : (b.vtx.map env.txHash).Nodup := by
  rw [CheckBlock] at hok
  split at hok; · exact absurd hok (by simp)
  split at hok; · exact absurd hok (by simp)
  split at hok; · exact absurd hok (by simp)
  split at hok; · exact absurd hok (by simp)
  split at hok; · exact absurd hok (by simp)
  split at hok; · exact absurd hok (by simp)
  split at hok
  · exact absurd hok (by simp)
  · rename_i hdup
    exact not_not.mp hdup

/-- C4: a block containing two transactions with an identical hash is never
accepted, and — whenever the checks preceding the duplicate scan (size,
proof of work, timestamp, coinbase placement, per-transaction checks) pass —
it is rejected with misbehavior penalty 100 for "duplicate transaction",
regardless of the header's declared Merkle root (in particular even when the
duplicated list's raw Merkle root coincides with that of a shorter list). -/
theorem checkBlock_duplicate_rejected (env : BlockEnv π) (b : CBlock π)
    (hdup : ¬ (b.vtx.map env.txHash).Nodup) :
    CheckBlock env b ≠ .ok ∧
    (¬ (b.vtx = [] ∨ b.vtx.length > env.maxBlockSize ∨
          env.serializeSize b > env.maxBlockSize) →
      Skeincoin.CheckProofOfWork env.pow (env.pow.headerHash b.header)
          b.header.nBits = true →
      ¬ ((b.header.nTime : Int) > env.adjustedTime + 2 * 60 * 60) →
      (match b.vtx with | [] => false | t :: _ => t.IsCoinBase) = true →
      (b.vtx.drop 1).any CTransaction.IsCoinBase = false →
      b.vtx.all env.checkTransaction = true →
      CheckBlock env b = .reject (some 100) .duplicateTx) := by
  constructor
  · intro hok
    exact hdup (checkBlock_ok_nodup env b hok)
  · intro h1 h2 h3 h4 h5 h6
    have hne : ¬ b.vtx = [] := by
      intro he
      rw [he] at h4
      simp at h4
    rw [CheckBlock, if_neg h1, if_neg (by simpa using h2),
      if_neg h3, if_neg (by simp [h4, hne]), if_neg (by rw [h5]; simp),
      if_neg (by simpa using h6), if_pos hdup]

/-- The coinbase transaction of the C4 witness block. -/
def txCoinbaseW : CTransaction :=
  { nVersion := 1,
    vin := [{ prevout := { hash := 0, n := 4294967295 }, scriptSig := [7], nSequence := 0 }],
    vout := [{ nValue := 50, scriptPubKey := [3] }],
    nLockTime := 0 }

/-- The duplicated non-coinbase transaction of the C4 witness block. -/
def txSpendW : CTransaction :=
  { nVersion := 1,
    vin := [{ prevout := { hash := 9, n := 0 }, scriptSig := [], nSequence := 0 }],
    vout := [{ nValue := 50, scriptPubKey := [4] }],
    nLockTime := 0 }

/-- Environment for the C4 witness: generous limits, trivially passing
proof-of-work and transaction checks, transactions hashed by an injective
stand-in. -/
def benvW : BlockEnv Unit :=
  { pow := envW,
    maxBlockSize := 1000,
    serializeSize := fun _ => 10,
    adjustedTime := 0,
    checkTransaction := fun _ => true,
    legacySigOpCount := fun _ => 0,
    maxSigOps := 100,
    txHash := fun tx => (tx.vout.map fun o => o.scriptPubKey.sum).sum,
    combineHash := hashPair }

/-- The C4 witness block: `[coinbase, B, B]` — transactions at indices 1 and
2 share a hash. -/
def blockW : CBlock Unit :=
  { header := hdrW3, vtx := [txCoinbaseW, txSpendW, txSpendW] }

/-- C4 witness: the duplicate-carrying block is rejected with DoS 100, with
every check before the duplicate scan passing. -/
theorem checkBlock_duplicate_rejected_witness :
    ¬ (blockW.vtx.map benvW.txHash).Nodup ∧
      CheckBlock benvW blockW ≠ .ok ∧
      CheckBlock benvW blockW = .reject (some 100) .duplicateTx :=
  ⟨by decide,
    (checkBlock_duplicate_rejected benvW blockW (by decide)).1,
    (checkBlock_duplicate_rejected benvW blockW (by decide)).2 (by decide) (by decide)
      (by decide) (by decide) (by decide) (by decide)⟩

end Skeincoin
